import Mathlib

/-!
Verification development for the insurance-claim retrieval system
(Segmenter, Detail/Needle Engine, Overview/Summary Engine, Router).

The Python source is shallowly embedded:

* `src/Indexing/needle_indexing.py` (`create_needle_chunks`): the
  sentence-accumulation loop is `buildChunks`, the sentence-granular
  overlap loop is `overlapOf`, the tail-merge postlude is
  `create_needle_chunks`.  A chunk is represented by its list of
  sentences; the emitted node text is the space-join `joinSp` of that
  list, exactly as `" ".join(current_chunk_sentences)` in the source.
* `src/Agents/needle_agent.py`: `search_chunks`, `_get_parent_context`
  and `answer_query` are embedded as `search_chunks`,
  `get_parent_context` and `answer_query_needle`.  External effects are
  explicit: the embedding call and the datastore fetch are `Except`
  values, the answer generator is a function `String → Except ε String`,
  and `numpy` float arithmetic is modelled over `ℚ` with the (irrational)
  square root abstracted as an explicit function parameter `sqrtQ`.
  Python's stable `list.sort(key=..., reverse=True)` is modelled by the
  stable descending insertion sort `sort_desc`.
* `src/Agents/summary_agent.py`: `search_summaries` and `answer_query`
  are embedded as `search_summaries` and `answer_query_summary`;
  Python's slice `list[:n]` (including its negative-index semantics) is
  modelled by `py_slice_take`.
* `src/Agents/routing_agent.py`: `route` is embedded as `route`, with
  the classifier call an `Except` value.
-/

/- ================= Segmenter (Indexing/needle_indexing.py) ================ -/

/-- Chunking configuration; `src/Config/config.py` sets
`CHUNK_SIZE = 400`, `CHUNK_OVERLAP = 50`, `MIN_CHUNK_SIZE = 200`. -/
structure ChunkCfg where
  chunkSize : Nat
  chunkOverlap : Nat
  minChunkSize : Nat
deriving DecidableEq

/-- The repository's configured values from `src/Config/config.py`. -/
def repoChunkCfg : ChunkCfg := { chunkSize := 400, chunkOverlap := 50, minChunkSize := 200 }

/-- Python's `str.strip()`: drop whitespace from both ends. -/
def py_strip (s : String) : String :=
  String.mk (((s.data.dropWhile Char.isWhitespace).reverse.dropWhile Char.isWhitespace).reverse)

/-- Python's `str.upper()` (ASCII range, which covers the router's labels). -/
def py_upper (s : String) : String := String.mk (s.data.map Char.toUpper)

/-- Python's `str.lower()` (ASCII range). -/
def py_lower (s : String) : String := String.mk (s.data.map Char.toLower)

/-- `" ".join(sentences)` — the text of a chunk built from its sentences. -/
def joinSp : List String → String
  | [] => ""
  | [s] => s
  | s :: rest => s ++ " " ++ joinSp rest

/-- The overlap loop of `create_needle_chunks` (needle_indexing.py lines
158-167): walk the previous chunk's sentences from the end, taking a
sentence while the accumulated length (`overlap_length`, which counts
each taken sentence's length plus one for its separating space) plus the
next sentence still fits in the overlap budget; stop at the first
sentence that does not fit. -/
def overlapGo (O : Nat) : List String → Nat → List String → List String
  | [], _, acc => acc
  | s :: rest, len, acc =>
    if len + s.length ≤ O then overlapGo O rest (len + s.length + 1) (s :: acc) else acc

/-- `overlap_sentences` computed from the just-closed chunk. -/
def overlapOf (O : Nat) (sents : List String) : List String :=
  overlapGo O sents.reverse 0 []

/-- The sentence-accumulation loop of `create_needle_chunks`
(needle_indexing.py lines 134-174).  State: remaining sentences, the
current chunk's sentences, `current_chunk_length`, and the closed chunks
so far.  A sentence is stripped and skipped if blank; if adding it would
push the current (non-empty) chunk past `CHUNK_SIZE`, the current chunk
is closed and the next one is seeded with the overlap suffix plus the
sentence, otherwise it is appended. -/
def buildChunks (cfg : ChunkCfg) : List String → List String → Nat → List (List String) →
    List (List String) × List String
  | [], cur, _, chunks => (chunks, cur)
  | s :: rest, cur, curLen, chunks =>
    let t := py_strip s
    if t = "" then buildChunks cfg rest cur curLen chunks
    else
      let potential := curLen + t.length + (if cur = [] then 0 else 1)
      if cur ≠ [] ∧ cfg.chunkSize < potential then
        let newCur := overlapOf cfg.chunkOverlap cur ++ [t]
        buildChunks cfg rest newCur ((newCur.map String.length).sum + newCur.length - 1)
          (chunks ++ [cur])
      else
        buildChunks cfg rest (cur ++ [t]) potential chunks

/-- `create_needle_chunks` for one page, given its sentence list (the
output of `split_into_sentences`): run the accumulation loop, then emit
the remaining tail — merging it into the previous chunk when it is
shorter than `MIN_CHUNK_SIZE` and a previous chunk exists
(needle_indexing.py lines 176-199).  Each result entry is a child unit's
sentence list; its stored text is `joinSp` of it. -/
def create_needle_chunks (cfg : ChunkCfg) (sentences : List String) : List (List String) :=
  let r := buildChunks cfg sentences [] 0 []
  let chunks := r.1
  let cur := r.2
  if cur = [] then chunks
  else if hch : chunks = [] then [cur]
  else if (joinSp cur).length < cfg.minChunkSize then
    chunks.dropLast ++ [chunks.getLast hch ++ cur]
  else chunks ++ [cur]

/- ======== Similarity retrieval (Agents/needle_agent.py search_chunks) ====== -/

/-- Dot product of two embedding vectors (`np.dot`). -/
def dotQ (a b : List ℚ) : ℚ := (List.zipWith (fun x y => x * y) a b).sum

/-- Cosine similarity `np.dot(q, c) / (np.linalg.norm(q) * np.linalg.norm(c))`
(needle_agent.py lines 146-149).  Float arithmetic is modelled over `ℚ`;
the square root inside `np.linalg.norm` is irrational, so it is passed
in as an explicit function `sqrtQ` (every theorem below holds for every
choice of `sqrtQ`). -/
def cosine_similarity (sqrtQ : ℚ → ℚ) (q c : List ℚ) : ℚ :=
  dotQ q c / (sqrtQ (dotQ q q) * sqrtQ (dotQ c c))

/-- One insertion step of the stable descending sort: walk past entries
with strictly larger score, and insert before the first entry whose
score is ≤ ours — so an entry inserted later (i.e. earlier in the input
enumeration, since `sort_desc` folds from the right) lands before
equal-scored entries, which is exactly the tie behaviour of Python's
stable `list.sort(key=lambda x: x[0], reverse=True)`. -/
def insert_desc {α : Type} (x : ℚ × α) : List (ℚ × α) → List (ℚ × α)
  | [] => [x]
  | y :: ys => if x.1 < y.1 then y :: insert_desc x ys else x :: y :: ys

/-- Stable sort by score, highest first — the model of
`similarities.sort(key=lambda x: x[0], reverse=True)`
(needle_agent.py line 154). -/
def sort_desc {α : Type} : List (ℚ × α) → List (ℚ × α)
  | [] => []
  | x :: xs => insert_desc x (sort_desc xs)

/-- Chunk metadata fields used by the agents (a JSON dict in the source;
`none` models an absent key). -/
structure ChunkMeta where
  parent_id : Option String := none
  page_number : Option String := none
  header : Option String := none
deriving DecidableEq

/-- A child-chunk row as fetched from the datastore
(`chunk_id, content, metadata, page_number, chunk_index, parent_id, embedding`). -/
structure Chunk where
  chunk_id : Option String := none
  content : Option String := none
  metadata : ChunkMeta := {}
  page_number : Option String := none
  parent_id : Option String := none
  embedding : List ℚ := []
deriving DecidableEq

/-- The scored candidate list `similarities = [(similarity, chunk), ...]`
(needle_agent.py lines 136-151). -/
def similarities (sqrtQ : ℚ → ℚ) (qe : List ℚ) (chunks : List Chunk) : List (ℚ × Chunk) :=
  chunks.map (fun c => (cosine_similarity sqrtQ qe c.embedding, c))

/-- `top_chunks = [chunk for score, chunk in similarities[:top_k]]` after
the stable descending sort (needle_agent.py lines 153-157). -/
def search_chunks_core (sqrtQ : ℚ → ℚ) (qe : List ℚ) (chunks : List Chunk) (k : Nat) :
    List Chunk :=
  ((sort_desc (similarities sqrtQ qe chunks)).take k).map Prod.snd

/-- The body of `search_chunks` after a successful fetch: an empty table
returns `[]`, otherwise the top-k scored chunks. -/
def search_chunks_result (sqrtQ : ℚ → ℚ) (qe : List ℚ) (chunks : List Chunk) (k : Nat) :
    List Chunk :=
  if chunks = [] then [] else search_chunks_core sqrtQ qe chunks k

/-- `NeedleAgent.search_chunks` (needle_agent.py lines 100-172).  The
embedding call happens before the `try:` block, so its failure
propagates; everything inside the `try:` (the fetch and the scoring) is
caught by `except Exception` and surfaced as `[]`. -/
def search_chunks (sqrtQ : ℚ → ℚ) (embedQ : Except String (List ℚ))
    (fetch : Except String (List Chunk)) (k : Nat) : Except String (List Chunk) :=
  match embedQ with
  | Except.error e => Except.error e
  | Except.ok qe =>
    match fetch with
    | Except.error _ => Except.ok []
    | Except.ok chunks => Except.ok (search_chunks_result sqrtQ qe chunks k)

/- ============ Detail engine answer path (Agents/needle_agent.py) =========== -/

/-- `_get_parent_context` (needle_agent.py lines 174-192): the docstore
lookup is abstracted as `ds : String → Option String` (the dict of
parent documents with their text-field extraction); an absent parent or
absent text field yields `""`. -/
def get_parent_context (ds : String → Option String) (pid : String) : String :=
  (ds pid).getD ""

/-- `metadata.get('parent_id', chunk.get('parent_id'))`
(needle_agent.py lines 232-233 and 278-279). -/
def raw_parent_id (c : Chunk) : Option String :=
  c.metadata.parent_id <|> c.parent_id

/-- The parent id as counted by the auto-merge loop: Python's
`if parent_id:` also drops an empty string (falsy). -/
def truthy_parent_id (c : Chunk) : Option String :=
  match raw_parent_id c with
  | some p => if p = "" then none else some p
  | none => none

/-- `parent_chunk_count[p]` — how many retrieved chunks have (truthy)
parent id `p` (needle_agent.py lines 230-235). -/
def parent_chunk_count (chunks : List Chunk) (p : String) : Nat :=
  (chunks.filter (fun c => truthy_parent_id c = some p)).length

/-- Membership in the `parents_to_merge` set (needle_agent.py lines
238-241): auto-merge must be on, `p` must be a key of
`parent_chunk_count` (so it occurs, with a truthy id), and its count
must reach the merge threshold. -/
def parents_to_merge_mem (chunks : List Chunk) (T : Nat) (am : Bool) (p : String) : Bool :=
  am && decide (0 < parent_chunk_count chunks p) && decide (T ≤ parent_chunk_count chunks p)

/-- `if parents_to_merge:` — the set is non-empty. -/
def parents_to_merge_nonempty (chunks : List Chunk) (T : Nat) (am : Bool) : Bool :=
  chunks.any (fun c =>
    match truthy_parent_id c with
    | some p => parents_to_merge_mem chunks T am p
    | none => false)

/-- One entry of the `context_parts` list built by `answer_query`; the
constructor records which append-site produced the entry. -/
inductive CtxPart where
  | chunkBlock (i : Nat) (page : String) (header : String) (content : String)
  | sepLine (s : String)
  | fullPage (parent_id : String) (page : String) (header : String) (text : String)
deriving DecidableEq

/-- `metadata.get('page_number', chunk.get('page_number', 'Unknown'))`. -/
def page_of (c : Chunk) : String := (c.metadata.page_number <|> c.page_number).getD "Unknown"

/-- `metadata.get('header', 'Unknown')`. -/
def header_of (c : Chunk) : String := c.metadata.header.getD "Unknown"

/-- `chunk.get('content', '')`. -/
def content_of (c : Chunk) : String := c.content.getD ""

/-- The chunk blocks appended first (needle_agent.py lines 253-260),
numbered from 1. -/
def chunk_parts (chunks : List Chunk) : List CtxPart :=
  chunks.enum.map (fun ic =>
    CtxPart.chunkBlock (ic.1 + 1) (page_of ic.2) (header_of ic.2) (content_of ic.2))

/-- One entry of the `sources` list (needle_agent.py lines 263-269). -/
structure NSource where
  page : String
  header : String
  chunk_id : String
  content : String
  metadata : ChunkMeta
deriving DecidableEq

/-- The `sources` list: one entry per retrieved chunk, with the default
id `chunk_{i}` when the row has none. -/
def chunk_sources (chunks : List Chunk) : List NSource :=
  chunks.enum.map (fun ic =>
    { page := page_of ic.2, header := header_of ic.2,
      chunk_id := ic.2.chunk_id.getD ("chunk_" ++ toString (ic.1 + 1)),
      content := content_of ic.2, metadata := ic.2.metadata })

/-- One iteration of the parent-page loop (needle_agent.py lines
277-291): a chunk's parent page is appended to the context, and its id
recorded in `parents_already_added`, only if the parent is marked for
merge, not yet added, and its docstore text is non-empty. -/
def parent_step (ds : String → Option String) (mem : String → Bool)
    (acc : List CtxPart × List String) (c : Chunk) : List CtxPart × List String :=
  match raw_parent_id c with
  | none => acc
  | some p =>
    if mem p ∧ p ∉ acc.2 then
      let ptext := get_parent_context ds p
      if ptext ≠ "" then
        (acc.1 ++ [CtxPart.fullPage p (page_of c) (header_of c) ptext], acc.2 ++ [p])
      else acc
    else acc

/-- The parent-page loop as a fold. -/
def parent_fold_go (ds : String → Option String) (mem : String → Bool)
    (l : List Chunk) (acc : List CtxPart × List String) : List CtxPart × List String :=
  l.foldl (parent_step ds mem) acc

/-- The parent-page section: full-page context parts and the
`parents_already_added` list, in append order. -/
def parent_fold (ds : String → Option String) (chunks : List Chunk) (T : Nat) (am : Bool) :
    List CtxPart × List String :=
  parent_fold_go ds (parents_to_merge_mem chunks T am) chunks ([], [])

/-- The three separator lines appended before the parent pages
(needle_agent.py lines 273-275). -/
def merge_sep_parts : List CtxPart :=
  [CtxPart.sepLine ("\n" ++ String.mk (List.replicate 70 '=')),
   CtxPart.sepLine "[ADDITIONAL CONTEXT - Full Parent Pages]",
   CtxPart.sepLine (String.mk (List.replicate 70 '=') ++ "\n")]

/-- The full `context_parts` list of `answer_query`: all chunk blocks,
then — only when some parent met the threshold — the separator lines and
the appended full parent pages. -/
def context_parts (ds : String → Option String) (chunks : List Chunk) (T : Nat) (am : Bool) :
    List CtxPart :=
  chunk_parts chunks ++
    (if parents_to_merge_nonempty chunks T am then
      merge_sep_parts ++ (parent_fold ds chunks T am).1
    else [])

/-- `parents_already_added` after the loop (empty when no parent met the
threshold, since the whole block is skipped). -/
def merged_parents (ds : String → Option String) (chunks : List Chunk) (T : Nat) (am : Bool) :
    List String :=
  if parents_to_merge_nonempty chunks T am then (parent_fold ds chunks T am).2 else []

/-- Rendering of a context part into its source-formatted string. -/
def render_part : CtxPart → String
  | CtxPart.chunkBlock i page hdr content => s!"[Chunk {i} - Page {page}: {hdr}]\n{content}"
  | CtxPart.sepLine s => s
  | CtxPart.fullPage _ page hdr text => s!"[FULL PAGE - Page {page}: {hdr}]\n{text}\n"

/-- `context = "\n\n".join(context_parts)`. -/
def needle_context (parts : List CtxPart) : String :=
  String.intercalate "\n\n" (parts.map render_part)

/-- The user prompt sent to the generator (needle_agent.py lines 309-315). -/
def needle_user_prompt (context query : String) : String :=
  s!"Context from insurance claim:\n\n{context}\n\nQuestion: {query}\n\nAnswer:"

/-- The answer object returned by the detail engine. -/
structure NeedleResult where
  answer : String
  sources : List NSource
  chunks_used : Nat
  parent_pages_used : Nat
deriving DecidableEq

/-- The post-retrieval body of `NeedleAgent.answer_query` (needle_agent.py
lines 229-344), reached when at least one chunk was retrieved: build the
context and sources, call the generator, and — when the generation call
raises — return the fixed failure message with the already-computed
sources and counts. -/
def needle_generate (ds : String → Option String) (gen : String → Except String String)
    (query : String) (chunks : List Chunk) (T : Nat) (am : Bool) : NeedleResult :=
  let sources := chunk_sources chunks
  let parts := context_parts ds chunks T am
  let added := merged_parents ds chunks T am
  match gen (needle_user_prompt (needle_context parts) query) with
  | Except.ok ans =>
    { answer := ans, sources := sources, chunks_used := chunks.length,
      parent_pages_used := added.length }
  | Except.error _ =>
    { answer := "An error occurred while generating the answer.", sources := sources,
      chunks_used := chunks.length, parent_pages_used := added.length }

/-- `NeedleAgent.answer_query` (needle_agent.py lines 194-344).  The
retrieval call is not guarded, so a `search_chunks` exception (i.e. an
embedding failure) propagates; an empty retrieval returns the fixed
not-found object. -/
def answer_query_needle (sqrtQ : ℚ → ℚ) (ds : String → Option String)
    (gen : String → Except String String) (query : String)
    (embedQ : Except String (List ℚ)) (fetch : Except String (List Chunk))
    (topK T : Nat) (am : Bool) : Except String NeedleResult :=
  match search_chunks sqrtQ embedQ fetch topK with
  | Except.error e => Except.error e
  | Except.ok chunks =>
    if chunks = [] then
      Except.ok { answer := "I couldn\x27t find relevant information to answer your question.",
                  sources := [], chunks_used := 0, parent_pages_used := 0 }
    else Except.ok (needle_generate ds gen query chunks T am)

/- ============= Overview engine (Agents/summary_agent.py) =================== -/

/-- Summary metadata fields used by the agent. -/
structure SumMeta where
  summary_type : Option String := none
  page_number : Option String := none
  header : Option String := none
  type_field : Option String := none
deriving DecidableEq

/-- A summary row as fetched from the datastore
(`summary_id, content, metadata, page_number, summary_type, embedding`). -/
structure SummaryRec where
  summary_id : Option String := none
  content : Option String := none
  metadata : SumMeta := {}
  page_number : Option String := none
  summary_type : Option String := none
  embedding : List ℚ := []
deriving DecidableEq

/-- `metadata.get('summary_type', summary.get('summary_type', ''))`
(summary_agent.py lines 100-102). -/
def page_type_of (s : SummaryRec) : String :=
  (s.metadata.summary_type <|> s.summary_type).getD ""

/-- Python's `list[:n]` for an `int` bound: a non-negative bound takes a
prefix; a negative bound drops that many elements from the end
(`max(0, len + n)` elements are kept). -/
def py_slice_take {α : Type} (l : List α) (n : Int) : List α :=
  if 0 ≤ n then l.take n.toNat else l.take (l.length - (-n).toNat)

/-- The selection logic of `SummaryAgent.search_summaries`
(summary_agent.py lines 95-137): split off the Overview pages, score and
stable-sort the others by cosine similarity, then keep
`num_others = min(top_k - len(overview_summaries), len(similarities))`
of them via the Python slice, and prepend all Overview pages. -/
def search_summaries_core (sqrtQ : ℚ → ℚ) (qe : List ℚ) (summaries : List SummaryRec)
    (topK : Nat) : List SummaryRec :=
  let overview_summaries := summaries.filter (fun s => page_type_of s = "Overview")
  let other_summaries := summaries.filter (fun s => ¬ (page_type_of s = "Overview"))
  let sims := sort_desc (other_summaries.map
    (fun s => (cosine_similarity sqrtQ qe s.embedding, s)))
  let num_others : Int := min ((topK : Int) - (overview_summaries.length : Int))
    ((sims.length : Int))
  overview_summaries ++ (py_slice_take sims num_others).map Prod.snd

/-- The body of `search_summaries` after a successful fetch: an empty
table returns `[]`. -/
def search_summaries_result (sqrtQ : ℚ → ℚ) (qe : List ℚ) (summaries : List SummaryRec)
    (topK : Nat) : List SummaryRec :=
  if summaries = [] then [] else search_summaries_core sqrtQ qe summaries topK

/-- `SummaryAgent.search_summaries` (summary_agent.py lines 59-158): the
embedding call precedes the `try:`, so its failure propagates; a fetch
failure is caught and surfaced as `[]`. -/
def search_summaries (sqrtQ : ℚ → ℚ) (embedQ : Except String (List ℚ))
    (fetch : Except String (List SummaryRec)) (topK : Nat) :
    Except String (List SummaryRec) :=
  match embedQ with
  | Except.error e => Except.error e
  | Except.ok qe =>
    match fetch with
    | Except.error _ => Except.ok []
    | Except.ok summaries => Except.ok (search_summaries_result sqrtQ qe summaries topK)

/-- One entry of the overview engine's `sources` list
(summary_agent.py lines 197-204). -/
structure SSource where
  page : String
  header : String
  summary_id : Option String
  summary : String
  stype : String
  metadata : SumMeta
deriving DecidableEq

/-- Build one source entry from a selected summary. -/
def summary_source_of (s : SummaryRec) : SSource :=
  { page := (s.metadata.page_number <|> s.page_number).getD "Unknown",
    header := s.metadata.header.getD "Unknown",
    summary_id := s.summary_id,
    summary := s.content.getD "",
    stype := (s.metadata.summary_type <|> s.metadata.type_field).getD "Unknown",
    metadata := s.metadata }

/-- The context blocks `[Page {n}: {header}]\n{content}` of the overview
engine (summary_agent.py lines 189-196). -/
def summary_context_parts (summaries : List SummaryRec) : List String :=
  summaries.map (fun s =>
    let p := (s.metadata.page_number <|> s.page_number).getD "Unknown"
    let h := s.metadata.header.getD "Unknown"
    let c := s.content.getD ""
    s!"[Page {p}: {h}]\n{c}")

/-- The user prompt sent to the generator (summary_agent.py lines 225-231). -/
def summary_user_prompt (context query : String) : String :=
  s!"Insurance claim summaries:\n\n{context}\n\nQuestion: {query}\n\nAnswer:"

/-- The answer object returned by the overview engine. -/
structure SummaryResult where
  answer : String
  sources : List SSource
  summaries_used : Nat
deriving DecidableEq

/-- `SummaryAgent.answer_query` (summary_agent.py lines 160-258). -/
def answer_query_summary (sqrtQ : ℚ → ℚ) (gen : String → Except String String)
    (query : String) (embedQ : Except String (List ℚ))
    (fetch : Except String (List SummaryRec)) (topK : Nat) :
    Except String SummaryResult :=
  match search_summaries sqrtQ embedQ fetch topK with
  | Except.error e => Except.error e
  | Except.ok summaries =>
    if summaries = [] then
      Except.ok { answer := "I couldn\x27t find relevant information to answer your question.",
                  sources := [], summaries_used := 0 }
    else
      let sources := summaries.map summary_source_of
      let context := String.intercalate "\n\n" (summary_context_parts summaries)
      match gen (summary_user_prompt context query) with
      | Except.ok ans =>
        Except.ok { answer := ans, sources := sources, summaries_used := summaries.length }
      | Except.error _ =>
        Except.ok { answer := "An error occurred while generating the answer.",
                    sources := sources, summaries_used := summaries.length }

/-- The seeding relation between consecutive chunks: the later chunk
begins with the overlap computed from the earlier one. -/
def seedRel (O : Nat) (a b : List String) : Prop := overlapOf O a <+: b

/-- Does this context part carry the full page of parent `P`? -/
def is_full_page_for (P : String) : CtxPart → Bool
  | CtxPart.fullPage p _ _ _ => p = P
  | _ => false

/-- Is this context part a full parent page (for any parent)? -/
def is_full_page : CtxPart → Bool
  | CtxPart.fullPage _ _ _ _ => true
  | _ => false

/- ==================== Router (Agents/routing_agent.py) ==================== -/

/-- `RoutingAgent.route` (routing_agent.py lines 120-155): the classifier
call is an `Except` value; its failure, and any output other than
`SUMMARY`/`NEEDLE` after strip+upper, defaults to `"needle"`. -/
def route (classify : Except String String) : String :=
  match classify with
  | Except.error _ => "needle"
  | Except.ok out =>
    let routing_decision := py_upper (py_strip out)
    if routing_decision = "SUMMARY" ∨ routing_decision = "NEEDLE" then
      py_lower routing_decision
    else "needle"

/- ========================= General lemmas ================================= -/

theorem length_insert_desc {α : Type} (x : ℚ × α) (l : List (ℚ × α)) :
    (insert_desc x l).length = l.length + 1 := by
  induction l with
  | nil => rfl
  | cons y ys ih =>
    simp only [insert_desc]
    split <;> simp [ih]

theorem length_sort_desc {α : Type} (l : List (ℚ × α)) :
    (sort_desc l).length = l.length := by
  induction l with
  | nil => rfl
  | cons x xs ih => simp [sort_desc, length_insert_desc, ih]

theorem mem_insert_desc {α : Type} {z x : ℚ × α} {l : List (ℚ × α)} :
    z ∈ insert_desc x l ↔ z = x ∨ z ∈ l := by
  induction l with
  | nil => simp [insert_desc]
  | cons y ys ih =>
    simp only [insert_desc]
    split
    · simp only [List.mem_cons, ih]
      try tauto
    · simp only [List.mem_cons]
      try tauto

theorem mem_sort_desc {α : Type} {z : ℚ × α} {l : List (ℚ × α)} :
    z ∈ sort_desc l ↔ z ∈ l := by
  induction l with
  | nil => simp [sort_desc]
  | cons x xs ih => simp [sort_desc, mem_insert_desc, ih]

theorem pairwise_insert_desc {α : Type} {x : ℚ × α} {l : List (ℚ × α)}
    (h : l.Pairwise (fun a b => b.1 ≤ a.1)) :
    (insert_desc x l).Pairwise (fun a b => b.1 ≤ a.1) := by
  induction l with
  | nil => simp [insert_desc]
  | cons y ys ih =>
    obtain ⟨hy, hys⟩ := List.pairwise_cons.mp h
    simp only [insert_desc]
    split
    · rename_i hlt
      refine List.pairwise_cons.mpr ⟨?_, ih hys⟩
      intro z hz
      rcases mem_insert_desc.mp hz with rfl | hz'
      · exact le_of_lt hlt
      · exact hy z hz'
    · rename_i hge
      refine List.pairwise_cons.mpr ⟨?_, h⟩
      intro z hz
      rcases List.mem_cons.mp hz with rfl | hz'
      · exact le_of_not_lt hge
      · exact le_trans (hy z hz') (le_of_not_lt hge)

theorem pairwise_sort_desc {α : Type} (l : List (ℚ × α)) :
    (sort_desc l).Pairwise (fun a b => b.1 ≤ a.1) := by
  induction l with
  | nil => simp [sort_desc]
  | cons x xs ih => exact pairwise_insert_desc ih

theorem filter_insert_desc {α : Type} (x : ℚ × α) (l : List (ℚ × α)) (s : ℚ) :
    (insert_desc x l).filter (fun p => p.1 = s) =
      if x.1 = s then x :: l.filter (fun p => p.1 = s)
      else l.filter (fun p => p.1 = s) := by
  induction l with
  | nil =>
    by_cases hx : x.1 = s <;> simp [insert_desc, List.filter_cons, hx]
  | cons y ys ih =>
    simp only [insert_desc]
    split
    · rename_i hlt
      by_cases hy : y.1 = s
      · have hx : ¬ x.1 = s := by
          intro hx
          rw [hx, hy] at hlt
          exact lt_irrefl s hlt
        simp [List.filter_cons, hy, hx, ih]
      · by_cases hx : x.1 = s <;> simp [List.filter_cons, hy, hx, ih]
    · by_cases hx : x.1 = s <;> simp [List.filter_cons, hx]

theorem filter_sort_desc {α : Type} (l : List (ℚ × α)) (s : ℚ) :
    (sort_desc l).filter (fun p => p.1 = s) = l.filter (fun p => p.1 = s) := by
  induction l with
  | nil => rfl
  | cons x xs ih =>
    rw [sort_desc, filter_insert_desc, ih]
    by_cases hx : x.1 = s <;> simp [List.filter_cons, hx]

theorem filter_take_prefix {α : Type} (p : α → Bool) :
    ∀ (l : List α) (k : Nat), (l.take k).filter p <+: l.filter p := by
  intro l
  induction l with
  | nil => intro k; simp
  | cons x xs ih =>
    intro k
    cases k with
    | zero => simp
    | succ k =>
      simp only [List.take_succ_cons, List.filter_cons]
      by_cases hx : p x = true
      · simp only [hx, if_true]
        obtain ⟨t, ht⟩ := ih k
        exact ⟨t, by rw [List.cons_append, ht]⟩
      · simp only [hx, if_false]
        exact ih k

theorem joinSp_cons₂ (s t : String) (r : List String) :
    joinSp (s :: t :: r) = s ++ " " ++ joinSp (t :: r) := rfl

theorem length_space : (" " : String).length = 1 := rfl

theorem joinSp_append : ∀ {l₁ l₂ : List String}, l₁ ≠ [] → l₂ ≠ [] →
    joinSp (l₁ ++ l₂) = joinSp l₁ ++ " " ++ joinSp l₂ := by
  intro l₁
  induction l₁ with
  | nil => intro l₂ h _; exact absurd rfl h
  | cons a l₁ ih =>
    intro l₂ _ h₂
    cases l₁ with
    | nil =>
      cases l₂ with
      | nil => exact absurd rfl h₂
      | cons b t => rfl
    | cons c r =>
      have hne : c :: r ≠ ([] : List String) := List.cons_ne_nil c r
      calc joinSp (a :: c :: r ++ l₂)
          = a ++ " " ++ joinSp (c :: r ++ l₂) := rfl
        _ = a ++ " " ++ (joinSp (c :: r) ++ " " ++ joinSp l₂) := by rw [ih hne h₂]
        _ = joinSp (a :: c :: r) ++ " " ++ joinSp l₂ := by
            rw [joinSp_cons₂]
            simp [String.append_assoc]

theorem joinSp_length_cons (s : String) {l : List String} (h : l ≠ []) :
    (joinSp (s :: l)).length = s.length + 1 + (joinSp l).length := by
  cases l with
  | nil => exact absurd rfl h
  | cons t r =>
    rw [joinSp_cons₂]
    simp [String.length_append, length_space]

theorem joinSp_length_eq : ∀ {l : List String}, l ≠ [] →
    (joinSp l).length = (l.map String.length).sum + l.length - 1 := by
  intro l
  induction l with
  | nil => intro h; exact absurd rfl h
  | cons s r ih =>
    intro _
    cases r with
    | nil => simp [joinSp]
    | cons t u =>
      have hne : t :: u ≠ ([] : List String) := List.cons_ne_nil t u
      rw [joinSp_length_cons s hne, ih hne]
      have hlen : 1 ≤ (t :: u).length := by simp
      simp only [List.map_cons, List.sum_cons, List.length_cons]
      omega

theorem joinSp_length_append_left {l₁ l₂ : List String} (h₁ : l₁ ≠ []) (h₂ : l₂ ≠ []) :
    (joinSp l₁).length ≤ (joinSp (l₁ ++ l₂)).length := by
  rw [joinSp_append h₁ h₂]
  simp [String.length_append, length_space]
  omega

theorem overlapGo_suffix (O : Nat) :
    ∀ (rev : List String) (len : Nat) (acc : List String),
      ∃ t, overlapGo O rev len acc = t ++ acc ∧ t.reverse <+: rev := by
  intro rev
  induction rev with
  | nil => intro len acc; exact ⟨[], rfl, by simp⟩
  | cons s rest ih =>
    intro len acc
    simp only [overlapGo]
    split
    · obtain ⟨t, ht, hp⟩ := ih (len + s.length + 1) (s :: acc)
      refine ⟨t ++ [s], ?_, ?_⟩
      · rw [ht]; simp
      · obtain ⟨u, hu⟩ := hp
        exact ⟨u, by simp [hu]⟩
    · exact ⟨[], rfl, by simp⟩

theorem overlapOf_suffix (O : Nat) (sents : List String) :
    overlapOf O sents <:+ sents := by
  obtain ⟨t, ht, hp⟩ := overlapGo_suffix O sents.reverse 0 []
  rw [overlapOf, ht, List.append_nil]
  obtain ⟨r, hr⟩ := hp
  refine ⟨r.reverse, ?_⟩
  have := congrArg List.reverse hr
  simpa using this

theorem overlapGo_joinLen (O : Nat) :
    ∀ (rev : List String) (len : Nat) (acc : List String),
      (acc = [] → len = 0) → (acc ≠ [] → len = (joinSp acc).length + 1) →
      (joinSp acc).length ≤ O →
      (joinSp (overlapGo O rev len acc)).length ≤ O := by
  intro rev
  induction rev with
  | nil => intro len acc _ _ h3; exact h3
  | cons s rest ih =>
    intro len acc h1 h2 h3
    simp only [overlapGo]
    split
    · rename_i hcond
      have hjoin : (joinSp (s :: acc)).length = len + s.length := by
        cases acc with
        | nil => simp [joinSp, h1 rfl]
        | cons a u =>
          rw [joinSp_length_cons s (List.cons_ne_nil a u), h2 (List.cons_ne_nil a u)]
          omega
      apply ih
      · intro habs; exact absurd habs (List.cons_ne_nil s acc)
      · intro _; rw [hjoin]
      · rw [hjoin]; omega
    · exact h3

theorem overlapOf_joinLen (O : Nat) (sents : List String) :
    (joinSp (overlapOf O sents)).length ≤ O := by
  refine overlapGo_joinLen O sents.reverse 0 [] (fun _ => rfl) ?_ ?_
  · intro h; exact absurd rfl h
  · simp [joinSp]

theorem buildChunks_cons (cfg : ChunkCfg) (s : String) (rest cur : List String)
    (curLen : Nat) (chunks : List (List String)) :
    buildChunks cfg (s :: rest) cur curLen chunks =
      if py_strip s = "" then buildChunks cfg rest cur curLen chunks
      else if cur = [] then
        buildChunks cfg rest (cur ++ [py_strip s]) (curLen + (py_strip s).length) chunks
      else if cfg.chunkSize < curLen + (py_strip s).length + 1 then
        buildChunks cfg rest (overlapOf cfg.chunkOverlap cur ++ [py_strip s])
          (((overlapOf cfg.chunkOverlap cur ++ [py_strip s]).map String.length).sum +
            (overlapOf cfg.chunkOverlap cur ++ [py_strip s]).length - 1)
          (chunks ++ [cur])
      else buildChunks cfg rest (cur ++ [py_strip s]) (curLen + (py_strip s).length + 1) chunks := by
  by_cases ht : py_strip s = ""
  · simp [buildChunks, ht]
  · by_cases hcur : cur = []
    · subst hcur
      simp [buildChunks, ht]
    · by_cases hpot : cfg.chunkSize < curLen + (py_strip s).length + 1
      · simp [buildChunks, ht, hcur, hpot]
      · simp [buildChunks, ht, hcur, hpot]

theorem buildChunks_min (cfg : ChunkCfg) :
    ∀ (sents cur : List String) (curLen : Nat) (chunks : List (List String)),
      curLen = (joinSp cur).length →
      (∀ s ∈ sents, (py_strip s).length + cfg.minChunkSize ≤ cfg.chunkSize) →
      (∀ c ∈ chunks, cfg.minChunkSize ≤ (joinSp c).length) →
      ∀ c ∈ (buildChunks cfg sents cur curLen chunks).1,
        cfg.minChunkSize ≤ (joinSp c).length := by
  intro sents
  induction sents with
  | nil =>
    intro cur curLen chunks _ _ hchunks
    simpa [buildChunks] using hchunks
  | cons s rest ih =>
    intro cur curLen chunks hlen hs hchunks
    have hs_head := hs s (List.mem_cons_self s rest)
    have hs_rest : ∀ u ∈ rest, (py_strip u).length + cfg.minChunkSize ≤ cfg.chunkSize :=
      fun u hu => hs u (List.mem_cons_of_mem s hu)
    rw [buildChunks_cons]
    split_ifs with ht hcur hpot
    · exact ih cur curLen chunks hlen hs_rest hchunks
    · subst hcur
      refine ih _ _ _ ?_ hs_rest hchunks
      simp [joinSp] at hlen
      simp [joinSp, hlen]
    · have hcur_min : cfg.minChunkSize ≤ (joinSp cur).length := by omega
      have hnew_ne : overlapOf cfg.chunkOverlap cur ++ [py_strip s] ≠ [] := by simp
      apply ih _ _ _ (joinSp_length_eq hnew_ne).symm hs_rest
      intro c hc
      rcases List.mem_append.mp hc with hc' | hc'
      · exact hchunks c hc'
      · rw [List.mem_singleton.mp hc']
        exact hcur_min
    · refine ih _ _ _ ?_ hs_rest hchunks
      have ht_ne : [py_strip s] ≠ ([] : List String) := by simp
      rw [joinSp_append hcur ht_ne]
      simp [String.length_append, length_space, joinSp, ← hlen]
      omega

theorem buildChunks_ne (cfg : ChunkCfg) :
    ∀ (sents cur : List String) (curLen : Nat) (chunks : List (List String)),
      (∀ c ∈ chunks, c ≠ []) →
      ∀ c ∈ (buildChunks cfg sents cur curLen chunks).1, c ≠ [] := by
  intro sents
  induction sents with
  | nil =>
    intro cur curLen chunks hchunks
    simpa [buildChunks] using hchunks
  | cons s rest ih =>
    intro cur curLen chunks hchunks
    rw [buildChunks_cons]
    split_ifs with ht hcur hpot
    · exact ih cur curLen chunks hchunks
    · exact ih _ _ _ hchunks
    · apply ih
      intro c hc
      rcases List.mem_append.mp hc with hc' | hc'
      · exact hchunks c hc'
      · rw [List.mem_singleton.mp hc']
        exact hcur
    · exact ih _ _ _ hchunks

theorem buildChunks_chain (cfg : ChunkCfg) :
    ∀ (sents cur : List String) (curLen : Nat) (chunks : List (List String)),
      List.Chain' (seedRel cfg.chunkOverlap) chunks →
      (∀ l ∈ chunks.getLast?, seedRel cfg.chunkOverlap l cur) →
      List.Chain' (seedRel cfg.chunkOverlap) (buildChunks cfg sents cur curLen chunks).1 ∧
      (∀ l ∈ ((buildChunks cfg sents cur curLen chunks).1).getLast?,
        seedRel cfg.chunkOverlap l (buildChunks cfg sents cur curLen chunks).2) := by
  intro sents
  induction sents with
  | nil =>
    intro cur curLen chunks h1 h2
    simpa [buildChunks] using ⟨h1, h2⟩
  | cons s rest ih =>
    intro cur curLen chunks h1 h2
    rw [buildChunks_cons]
    split_ifs with ht hcur hpot
    · exact ih cur curLen chunks h1 h2
    · refine ih _ _ _ h1 ?_
      intro l hl
      exact (h2 l hl).trans (List.prefix_append cur [py_strip s])
    · apply ih
      · refine List.chain'_append.mpr ⟨h1, List.chain'_singleton cur, ?_⟩
        intro x hx y hy
        simp only [List.head?_cons, Option.mem_def, Option.some.injEq] at hy
        subst hy
        exact h2 x hx
      · intro l hl
        rw [List.getLast?_concat] at hl
        simp only [Option.mem_def, Option.some.injEq] at hl
        subst hl
        exact List.prefix_append _ _
    · refine ih _ _ _ h1 ?_
      intro l hl
      exact (h2 l hl).trans (List.prefix_append cur [py_strip s])

theorem parent_fold_go_nil (ds : String → Option String) (mem : String → Bool)
    (acc : List CtxPart × List String) : parent_fold_go ds mem [] acc = acc := rfl

theorem parent_fold_go_cons (ds : String → Option String) (mem : String → Bool)
    (c : Chunk) (l : List Chunk) (acc : List CtxPart × List String) :
    parent_fold_go ds mem (c :: l) acc = parent_fold_go ds mem l (parent_step ds mem acc c) := rfl

theorem parent_fold_go_count (ds : String → Option String) (mem : String → Bool) (P : String)
    (hmem : mem P = true) (htext : get_parent_context ds P ≠ "") :
    ∀ (l : List Chunk) (acc : List CtxPart × List String),
      ((((parent_fold_go ds mem l acc).1).filter (is_full_page_for P)).length
        = (acc.1.filter (is_full_page_for P)).length
            + (if P ∈ acc.2 then 0
               else if l.any (fun c => raw_parent_id c = some P) then 1 else 0))
      ∧ (P ∈ (parent_fold_go ds mem l acc).2
          ↔ P ∈ acc.2 ∨ l.any (fun c => raw_parent_id c = some P) = true) := by
  intro l
  induction l with
  | nil =>
    intro acc
    simp [parent_fold_go_nil]
  | cons c l ih =>
    intro acc
    rw [parent_fold_go_cons]
    rcases hraw : raw_parent_id c with _ | p
    · have hstep : parent_step ds mem acc c = acc := by
        simp [parent_step, hraw]
      rw [hstep]
      have hany : (c :: l).any (fun c => raw_parent_id c = some P)
          = l.any (fun c => raw_parent_id c = some P) := by
        simp [List.any_cons, hraw]
      rw [hany]
      exact ih acc
    · by_cases hp : p = P
      · subst hp
        have hany : (c :: l).any (fun c => raw_parent_id c = some p) = true := by
          simp [List.any_cons, hraw]
        rw [hany]
        by_cases hin : p ∈ acc.2
        · have hstep : parent_step ds mem acc c = acc := by
            simp [parent_step, hraw, hin]
          rw [hstep]
          obtain ⟨ihc, ihm⟩ := ih acc
          refine ⟨?_, ?_⟩
          · rw [ihc]
            simp [hin]
          · rw [ihm]
            simp [hin]
        · have hstep : parent_step ds mem acc c
              = (acc.1 ++ [CtxPart.fullPage p (page_of c) (header_of c)
                  (get_parent_context ds p)], acc.2 ++ [p]) := by
            simp [parent_step, hraw, hmem, hin, htext]
          rw [hstep]
          obtain ⟨ihc, ihm⟩ := ih (acc.1 ++ [CtxPart.fullPage p (page_of c) (header_of c)
              (get_parent_context ds p)], acc.2 ++ [p])
          refine ⟨?_, ?_⟩
          · rw [ihc]
            have hpart : is_full_page_for p (CtxPart.fullPage p (page_of c) (header_of c)
                (get_parent_context ds p)) = true := by
              simp [is_full_page_for]
            simp [List.filter_append, hpart, hin]
          · rw [ihm]
            simp [hin]
      · have hany : (c :: l).any (fun c => raw_parent_id c = some P)
            = l.any (fun c => raw_parent_id c = some P) := by
          simp [List.any_cons, hraw, hp]
        rw [hany]
        have hkeep : ((parent_step ds mem acc c).1.filter (is_full_page_for P)
              = acc.1.filter (is_full_page_for P))
            ∧ ((P ∈ (parent_step ds mem acc c).2) ↔ P ∈ acc.2) := by
          simp only [parent_step, hraw]
          split_ifs with h1 h2
          · constructor
            · have hpart : is_full_page_for P (CtxPart.fullPage p (page_of c) (header_of c)
                  (get_parent_context ds p)) = false := by
                simp [is_full_page_for, hp]
              simp [List.filter_append, hpart]
            · simp [hp, Ne.symm hp]
          · exact ⟨rfl, Iff.rfl⟩
          · exact ⟨rfl, Iff.rfl⟩
        obtain ⟨ihc, ihm⟩ := ih (parent_step ds mem acc c)
        refine ⟨?_, ?_⟩
        · rw [ihc, hkeep.1]
          simp only [hkeep.2]
        · rw [ihm]
          simp only [hkeep.2]

theorem parent_fold_go_count_zero (ds : String → Option String) (mem : String → Bool)
    (P : String) (h : mem P = false ∨ get_parent_context ds P = "") :
    ∀ (l : List Chunk) (acc : List CtxPart × List String),
      (((parent_fold_go ds mem l acc).1).filter (is_full_page_for P)).length
        = (acc.1.filter (is_full_page_for P)).length := by
  intro l
  induction l with
  | nil => intro acc; simp [parent_fold_go_nil]
  | cons c l ih =>
    intro acc
    rw [parent_fold_go_cons, ih]
    rcases hraw : raw_parent_id c with _ | p
    · simp [parent_step, hraw]
    · simp only [parent_step, hraw]
      split_ifs with h1 h2
      · by_cases hp : p = P
        · subst hp
          rcases h with hm | ht
        -- mem p is true by h1 but false by hm; or text is "" but h2 says otherwise
          · rw [hm] at h1
            exact absurd h1.1 (by simp)
          · exact absurd ht h2
        · have hpart : is_full_page_for P (CtxPart.fullPage p (page_of c) (header_of c)
              (get_parent_context ds p)) = false := by
            simp [is_full_page_for, hp]
          simp [List.filter_append, hpart]
      · rfl
      · rfl

theorem parent_fold_go_mem_text (ds : String → Option String) (mem : String → Bool)
    (P : String) :
    ∀ (l : List Chunk) (acc : List CtxPart × List String),
      P ∈ (parent_fold_go ds mem l acc).2 →
      P ∈ acc.2 ∨ get_parent_context ds P ≠ "" := by
  intro l
  induction l with
  | nil =>
    intro acc h
    rw [parent_fold_go_nil] at h
    exact Or.inl h
  | cons c l ih =>
    intro acc h
    rw [parent_fold_go_cons] at h
    rcases ih _ h with hin | ht
    · rcases hraw : raw_parent_id c with _ | p
      · have hstep : parent_step ds mem acc c = acc := by
          simp [parent_step, hraw]
        rw [hstep] at hin
        exact Or.inl hin
      · by_cases h1 : mem p = true ∧ p ∉ acc.2
        · by_cases h2 : get_parent_context ds p ≠ ""
          · have hstep : parent_step ds mem acc c
                = (acc.1 ++ [CtxPart.fullPage p (page_of c) (header_of c)
                    (get_parent_context ds p)], acc.2 ++ [p]) := by
              simp [parent_step, hraw, h1, h2]
            rw [hstep] at hin
            rcases List.mem_append.mp hin with hin' | hin'
            · exact Or.inl hin'
            · rw [List.mem_singleton.mp hin']
              exact Or.inr h2
          · have hstep : parent_step ds mem acc c = acc := by
              simp [parent_step, hraw, h1, h2]
            rw [hstep] at hin
            exact Or.inl hin
        · have hstep : parent_step ds mem acc c = acc := by
            simp [parent_step, hraw, h1]
          rw [hstep] at hin
          exact Or.inl hin
    · exact Or.inr ht

theorem parent_fold_go_sizes (ds : String → Option String) (mem : String → Bool) :
    ∀ (l : List Chunk) (acc : List CtxPart × List String),
      (((parent_fold_go ds mem l acc).1).filter is_full_page).length + acc.2.length
        = (acc.1.filter is_full_page).length + ((parent_fold_go ds mem l acc).2).length := by
  intro l
  induction l with
  | nil => intro acc; simp [parent_fold_go_nil]
  | cons c l ih =>
    intro acc
    rw [parent_fold_go_cons]
    rcases hraw : raw_parent_id c with _ | p
    · have hstep : parent_step ds mem acc c = acc := by
        simp [parent_step, hraw]
      rw [hstep]
      exact ih acc
    · by_cases h1 : mem p = true ∧ p ∉ acc.2
      · by_cases h2 : get_parent_context ds p ≠ ""
        · have hstep : parent_step ds mem acc c
              = (acc.1 ++ [CtxPart.fullPage p (page_of c) (header_of c)
                  (get_parent_context ds p)], acc.2 ++ [p]) := by
            simp [parent_step, hraw, h1, h2]
          rw [hstep]
          have := ih (acc.1 ++ [CtxPart.fullPage p (page_of c) (header_of c)
              (get_parent_context ds p)], acc.2 ++ [p])
          have hpart : is_full_page (CtxPart.fullPage p (page_of c) (header_of c)
              (get_parent_context ds p)) = true := rfl
          simp only [List.filter_append, List.length_append, List.filter_cons, hpart,
            if_true, List.filter_nil, List.length_cons, List.length_nil] at this
          omega
        · have hstep : parent_step ds mem acc c = acc := by
            simp [parent_step, hraw, h1, h2]
          rw [hstep]
          exact ih acc
      · have hstep : parent_step ds mem acc c = acc := by
          simp [parent_step, hraw, h1]
        rw [hstep]
        exact ih acc

theorem truthy_raw {c : Chunk} {P : String} (h : truthy_parent_id c = some P) :
    raw_parent_id c = some P := by
  unfold truthy_parent_id at h
  rcases hraw : raw_parent_id c with _ | p
  · rw [hraw] at h
    exact absurd h (by simp)
  · rw [hraw] at h
    simp only [] at h
    by_cases hp : p = ""
    · simp [hp] at h
    · simp only [if_neg hp] at h
      exact h

theorem exists_truthy_of_count_pos {chunks : List Chunk} {P : String}
    (h : 0 < parent_chunk_count chunks P) :
    ∃ c ∈ chunks, truthy_parent_id c = some P := by
  unfold parent_chunk_count at h
  obtain ⟨c, hc⟩ := List.exists_mem_of_length_pos h
  obtain ⟨hc1, hc2⟩ := List.mem_filter.mp hc
  exact ⟨c, hc1, by simpa using hc2⟩

theorem filter_chunk_parts_for (P : String) (chunks : List Chunk) :
    (chunk_parts chunks).filter (is_full_page_for P) = [] := by
  rw [List.filter_eq_nil_iff]
  intro a ha
  obtain ⟨ic, _, rfl⟩ := List.mem_map.mp ha
  simp [is_full_page_for]

theorem filter_chunk_parts_any (chunks : List Chunk) :
    (chunk_parts chunks).filter is_full_page = [] := by
  rw [List.filter_eq_nil_iff]
  intro a ha
  obtain ⟨ic, _, rfl⟩ := List.mem_map.mp ha
  simp [is_full_page]

theorem filter_merge_sep_for (P : String) :
    merge_sep_parts.filter (is_full_page_for P) = [] := rfl

theorem filter_merge_sep_any : merge_sep_parts.filter is_full_page = [] := rfl

theorem filter_context_parts (ds : String → Option String) (chunks : List Chunk)
    (T : Nat) (am : Bool) (P : String) :
    (context_parts ds chunks T am).filter (is_full_page_for P)
      = (if parents_to_merge_nonempty chunks T am then
          (parent_fold ds chunks T am).1.filter (is_full_page_for P) else []) := by
  rw [context_parts, List.filter_append, filter_chunk_parts_for]
  cases hne : parents_to_merge_nonempty chunks T am
  · simp
  · simp [List.filter_append, filter_merge_sep_for]

theorem filter_context_parts_any (ds : String → Option String) (chunks : List Chunk)
    (T : Nat) (am : Bool) :
    (context_parts ds chunks T am).filter is_full_page
      = (if parents_to_merge_nonempty chunks T am then
          (parent_fold ds chunks T am).1.filter is_full_page else []) := by
  rw [context_parts, List.filter_append, filter_chunk_parts_any]
  cases hne : parents_to_merge_nonempty chunks T am
  · simp
  · simp [List.filter_append, filter_merge_sep_any]

theorem merged_parents_length (ds : String → Option String) (chunks : List Chunk)
    (T : Nat) (am : Bool) :
    (merged_parents ds chunks T am).length
      = ((context_parts ds chunks T am).filter is_full_page).length := by
  rw [merged_parents, filter_context_parts_any]
  cases hne : parents_to_merge_nonempty chunks T am
  · simp
  · simp only [if_true]
    have := parent_fold_go_sizes ds (parents_to_merge_mem chunks T am) chunks ([], [])
    simp only [List.filter_nil, List.length_nil] at this
    rw [parent_fold]
    omega

/- ========================= Claim theorems ================================= -/

/-- Claim C1: in the Detail Engine's `answer_query` with auto-merge
enabled and merge threshold `T`, for every parent id `P` occurring among
the retrieved child chunks whose full text is present in the parent
docstore: if at least `T` of the retrieved chunks have parent id `P`,
the full text of parent unit `P` appears exactly once in the generation
context (never duplicated, however many of `P`'s children were
retrieved); if fewer than `T` do (in particular exactly `T − 1`), `P`'s
full text does not appear in the context. -/
theorem C1_auto_merge_threshold (ds : String → Option String) (chunks : List Chunk)
    (T : Nat) (P : String) :
    (0 < parent_chunk_count chunks P → T ≤ parent_chunk_count chunks P →
      get_parent_context ds P ≠ "" →
      ((context_parts ds chunks T true).filter (is_full_page_for P)).length = 1)
    ∧ (parent_chunk_count chunks P < T →
      ((context_parts ds chunks T true).filter (is_full_page_for P)).length = 0) := by
  constructor
  · intro hocc hT htext
    have hmem : parents_to_merge_mem chunks T true P = true := by
      simp [parents_to_merge_mem, hocc, hT]
    obtain ⟨c, hc, hct⟩ := exists_truthy_of_count_pos hocc
    have hne : parents_to_merge_nonempty chunks T true = true := by
      refine List.any_eq_true.mpr ⟨c, hc, ?_⟩
      simpa [hct] using hmem
    rw [filter_context_parts, if_pos hne]
    have hcount := (parent_fold_go_count ds (parents_to_merge_mem chunks T true) P hmem htext
      chunks ([], [])).1
    have hany : chunks.any (fun c => raw_parent_id c = some P) = true :=
      List.any_eq_true.mpr ⟨c, hc, by simp [truthy_raw hct]⟩
    rw [parent_fold]
    simp only [List.filter_nil, List.length_nil, List.not_mem_nil, if_false, hany,
      if_true] at hcount
    simpa using hcount
  · intro hlt
    have hnle : ¬ (T ≤ parent_chunk_count chunks P) := Nat.not_le.mpr hlt
    have hmemf : parents_to_merge_mem chunks T true P = false := by
      simp [parents_to_merge_mem, hnle]
    rw [filter_context_parts]
    cases hne : parents_to_merge_nonempty chunks T true
    · simp
    · simp only [if_true]
      have := parent_fold_go_count_zero ds (parents_to_merge_mem chunks T true) P
        (Or.inl hmemf) chunks ([], [])
      rw [parent_fold]
      simpa using this

/-- Witness for C1 at a concrete input: three retrieved chunks all from
parent `page_1`, threshold `T = 3`, parent text present — the full page
appears exactly once. -/
theorem C1_auto_merge_threshold_witness :
    (0 < parent_chunk_count
        [ { metadata := { parent_id := some "page_1" } },
          { metadata := { parent_id := some "page_1" } },
          { metadata := { parent_id := some "page_1" } } ] "page_1"
      ∧ 3 ≤ parent_chunk_count
        [ { metadata := { parent_id := some "page_1" } },
          { metadata := { parent_id := some "page_1" } },
          { metadata := { parent_id := some "page_1" } } ] "page_1"
      ∧ get_parent_context
          (fun p => if p = "page_1" then some "FULL PAGE TEXT" else none) "page_1" ≠ "")
    ∧ ((context_parts (fun p => if p = "page_1" then some "FULL PAGE TEXT" else none)
        [ { metadata := { parent_id := some "page_1" } },
          { metadata := { parent_id := some "page_1" } },
          { metadata := { parent_id := some "page_1" } } ] 3 true).filter
        (is_full_page_for "page_1")).length = 1 :=
  ⟨by decide,
   (C1_auto_merge_threshold
      (fun p => if p = "page_1" then some "FULL PAGE TEXT" else none)
      [ { metadata := { parent_id := some "page_1" } },
        { metadata := { parent_id := some "page_1" } },
        { metadata := { parent_id := some "page_1" } } ] 3 "page_1").1
     (by decide) (by decide) (by decide)⟩

/-- Claim C10 (implicit): in the Detail Engine's `answer_query`, a parent
that meets the auto-merge threshold but whose id is absent from the
loaded parent docstore (or whose stored document yields empty text) is
silently skipped: its full text is not added to the generation context,
it is not counted in `parent_pages_used`, and no error is raised — so
`parent_pages_used` counts exactly the parents whose full text was
actually appended (the full-page blocks of the context), which can be
fewer than the parents meeting the threshold. -/
theorem C10_missing_parent_skipped (ds : String → Option String)
    (gen : String → Except String String) (q : String) (chunks : List Chunk)
    (T : Nat) (P : String)
    (hT : T ≤ parent_chunk_count chunks P)
    (hmiss : get_parent_context ds P = "") :
    ((context_parts ds chunks T true).filter (is_full_page_for P)).length = 0
    ∧ P ∉ merged_parents ds chunks T true
    ∧ (needle_generate ds gen q chunks T true).parent_pages_used
        = ((context_parts ds chunks T true).filter is_full_page).length := by
  refine ⟨?_, ?_, ?_⟩
  · rw [filter_context_parts]
    cases hne : parents_to_merge_nonempty chunks T true
    · simp
    · simp only [if_true]
      have := parent_fold_go_count_zero ds (parents_to_merge_mem chunks T true) P
        (Or.inr hmiss) chunks ([], [])
      rw [parent_fold]
      simpa using this
  · intro hmem
    rw [merged_parents] at hmem
    by_cases hne : parents_to_merge_nonempty chunks T true = true
    · rw [if_pos hne, parent_fold] at hmem
      rcases parent_fold_go_mem_text ds (parents_to_merge_mem chunks T true) P chunks
        ([], []) hmem with habs | habs
      · exact absurd habs (List.not_mem_nil P)
      · exact habs hmiss
    · rw [if_neg hne] at hmem
      exact absurd hmem (List.not_mem_nil P)
  · have hppu : (needle_generate ds gen q chunks T true).parent_pages_used
        = (merged_parents ds chunks T true).length := by
      rw [needle_generate]
      cases hgen : gen (needle_user_prompt
          (needle_context (context_parts ds chunks T true)) q) <;> simp [hgen]
    rw [hppu, merged_parents_length]

/-- Witness for C10 at a concrete input: three chunks from parent
`page_9`, threshold met, but the docstore has no entry — no full page is
appended and `parent_pages_used` is the number of appended full pages. -/
theorem C10_missing_parent_skipped_witness :
    (3 ≤ parent_chunk_count
        [ { metadata := { parent_id := some "page_9" } },
          { metadata := { parent_id := some "page_9" } },
          { metadata := { parent_id := some "page_9" } } ] "page_9"
      ∧ get_parent_context (fun _ => none) "page_9" = "")
    ∧ ((context_parts (fun _ => none)
        [ { metadata := { parent_id := some "page_9" } },
          { metadata := { parent_id := some "page_9" } },
          { metadata := { parent_id := some "page_9" } } ] 3 true).filter
        (is_full_page_for "page_9")).length = 0 :=
  ⟨by decide,
   (C10_missing_parent_skipped (fun _ => none) (fun _ => Except.ok "ans") "q"
      [ { metadata := { parent_id := some "page_9" } },
        { metadata := { parent_id := some "page_9" } },
        { metadata := { parent_id := some "page_9" } } ] 3 "page_9"
      (by decide) (by decide)).1⟩

/-- Claim C3 is false as stated: counterexample.  The page whose text is
`"Hi. " ++ "A"*400` splits into the sentences `["Hi.", "Aaaa…a"]`; with
the repository configuration (chunk size 400, minimum 200) the Segmenter
closes the chunk `"Hi."` (3 characters, far below `MIN_CHUNK_SIZE`)
right before the over-long second sentence, and then emits a second
chunk — so a unit below the minimum is emitted although it is not the
sole unit of its parent (the backward merge only ever applies to the
final tail chunk). -/
theorem C3_tail_merge_counterexample :
    2 ≤ (create_needle_chunks repoChunkCfg
          ["Hi.", String.mk ('A' :: List.replicate 399 'a')]).length
    ∧ ∃ c ∈ create_needle_chunks repoChunkCfg
          ["Hi.", String.mk ('A' :: List.replicate 399 'a')],
        (joinSp c).length < repoChunkCfg.minChunkSize := by
  set_option maxRecDepth 100000 in decide

/-- Claim C3 (amended): for every page processed by the Segmenter, every
emitted Child Unit's text length is at least the configured minimum
chunk size, except when that unit is the sole child unit of its parent —
PROVIDED every (stripped) sentence of the page is no longer than
`CHUNK_SIZE − MIN_CHUNK_SIZE`.  Without that bound on sentence lengths a
chunk closed immediately before an over-long sentence can be arbitrarily
short (see the counterexample). -/
theorem C3_min_chunk_size_amended (cfg : ChunkCfg) (sents : List String)
    (hS : ∀ s ∈ sents, (py_strip s).length + cfg.minChunkSize ≤ cfg.chunkSize)
    (h2 : 2 ≤ (create_needle_chunks cfg sents).length) :
    ∀ c ∈ create_needle_chunks cfg sents, cfg.minChunkSize ≤ (joinSp c).length := by
  rcases hbc : buildChunks cfg sents [] 0 [] with ⟨chunks, cur⟩
  have hloop : ∀ c ∈ chunks, cfg.minChunkSize ≤ (joinSp c).length := by
    have := buildChunks_min cfg sents [] 0 [] (by simp [joinSp]) hS (by simp)
    rw [hbc] at this
    exact this
  have hne : ∀ c ∈ chunks, c ≠ [] := by
    have := buildChunks_ne cfg sents [] 0 [] (by simp)
    rw [hbc] at this
    exact this
  intro c hc
  simp only [create_needle_chunks, hbc] at hc h2
  by_cases hcur : cur = []
  · rw [if_pos hcur] at hc
    exact hloop c hc
  · rw [if_neg hcur] at hc h2
    by_cases hch : chunks = []
    · rw [dif_pos hch] at h2
      simp at h2
    · rw [dif_neg hch] at hc
      by_cases hlt : (joinSp cur).length < cfg.minChunkSize
      · rw [if_pos hlt] at hc
        rcases List.mem_append.mp hc with hc' | hc'
        · exact hloop c ((List.dropLast_sublist chunks).subset hc')
        · rw [List.mem_singleton.mp hc']
          have hlast_mem := List.getLast_mem hch
          have hlast_ne : chunks.getLast hch ≠ [] := hne _ hlast_mem
          calc cfg.minChunkSize
              ≤ (joinSp (chunks.getLast hch)).length := hloop _ hlast_mem
            _ ≤ (joinSp (chunks.getLast hch ++ cur)).length :=
                joinSp_length_append_left hlast_ne hcur
      · rw [if_neg hlt] at hc
        rcases List.mem_append.mp hc with hc' | hc'
        · exact hloop c hc'
        · rw [List.mem_singleton.mp hc']
          omega

/-- Witness for the amended C3: three 10-character sentences with
configuration (size 20, overlap 5, minimum 10) — every sentence obeys
the bound, at least two units are emitted, and all meet the minimum. -/
theorem C3_min_chunk_size_amended_witness :
    ((∀ s ∈ ["aaaaaaaaaa", "aaaaaaaaaa", "aaaaaaaaaa"],
        (py_strip s).length + (10 : Nat) ≤ 20)
      ∧ 2 ≤ (create_needle_chunks { chunkSize := 20, chunkOverlap := 5, minChunkSize := 10 }
          ["aaaaaaaaaa", "aaaaaaaaaa", "aaaaaaaaaa"]).length)
    ∧ ∀ c ∈ create_needle_chunks { chunkSize := 20, chunkOverlap := 5, minChunkSize := 10 }
          ["aaaaaaaaaa", "aaaaaaaaaa", "aaaaaaaaaa"],
        (10 : Nat) ≤ (joinSp c).length :=
  ⟨by decide,
   C3_min_chunk_size_amended { chunkSize := 20, chunkOverlap := 5, minChunkSize := 10 }
     ["aaaaaaaaaa", "aaaaaaaaaa", "aaaaaaaaaa"] (by decide) (by decide)⟩

/-- Claim C8: for every two consecutive Child Units of the same parent
produced by the Segmenter, the overlap seeded into the later unit is a
suffix of the earlier unit's sentences (whole trailing sentences — a
sentence is never split across the overlap boundary), it is a prefix of
the later unit's sentences, and the combined length of those overlap
sentences as they appear joined in the new unit's text is at most the
configured overlap `CHUNK_OVERLAP`. -/
theorem C8_overlap_invariant (cfg : ChunkCfg) (sents : List String) :
    List.Chain' (fun a b =>
        overlapOf cfg.chunkOverlap a <+: b
        ∧ overlapOf cfg.chunkOverlap a <:+ a
        ∧ (joinSp (overlapOf cfg.chunkOverlap a)).length ≤ cfg.chunkOverlap)
      (create_needle_chunks cfg sents) := by
  have himp : ∀ a b : List String, seedRel cfg.chunkOverlap a b →
      overlapOf cfg.chunkOverlap a <+: b
      ∧ overlapOf cfg.chunkOverlap a <:+ a
      ∧ (joinSp (overlapOf cfg.chunkOverlap a)).length ≤ cfg.chunkOverlap :=
    fun a b h => ⟨h, overlapOf_suffix cfg.chunkOverlap a, overlapOf_joinLen cfg.chunkOverlap a⟩
  refine List.Chain'.imp (fun a b h => himp a b h) ?_
  rcases hbc : buildChunks cfg sents [] 0 [] with ⟨chunks, cur⟩
  obtain ⟨hchain, hlast⟩ :
      List.Chain' (seedRel cfg.chunkOverlap) chunks
      ∧ ∀ l ∈ chunks.getLast?, seedRel cfg.chunkOverlap l cur := by
    have := buildChunks_chain cfg sents [] 0 [] List.chain'_nil (by simp)
    rw [hbc] at this
    exact this
  simp only [create_needle_chunks, hbc]
  by_cases hcur : cur = []
  · rw [if_pos hcur]
    exact hchain
  · rw [if_neg hcur]
    by_cases hch : chunks = []
    · rw [dif_pos hch]
      exact List.chain'_singleton cur
    · rw [dif_neg hch]
      by_cases hlt : (joinSp cur).length < cfg.minChunkSize
      · rw [if_pos hlt]
        have hsplit : chunks = chunks.dropLast ++ [chunks.getLast hch] :=
          (List.dropLast_append_getLast hch).symm
        rw [hsplit] at hchain
        obtain ⟨hdrop, _, hcross⟩ := List.chain'_append.mp hchain
        refine List.chain'_append.mpr ⟨hdrop, List.chain'_singleton _, ?_⟩
        intro x hx y hy
        simp only [List.head?_cons, Option.mem_def, Option.some.injEq] at hy
        subst hy
        have hx_last : seedRel cfg.chunkOverlap x (chunks.getLast hch) := by
          have := hcross x hx (chunks.getLast hch)
          simpa using this
        exact hx_last.trans (List.prefix_append _ cur)
      · rw [if_neg hlt]
        refine List.chain'_append.mpr ⟨hchain, List.chain'_singleton cur, ?_⟩
        intro x hx y hy
        simp only [List.head?_cons, Option.mem_def, Option.some.injEq] at hy
        subst hy
        exact hlast x hx

/-- Claim C4 is false as stated: counterexample.  When the embedding call
raises, `search_chunks` re-raises (the call sits before the `try:`
block), and `answer_query` does not catch it — the caller gets an
exception, not the fixed not-found object. -/
theorem C4_embed_failure_counterexample :
    answer_query_needle (fun x => x) (fun _ => none) (fun _ => Except.ok "a") "q"
      (Except.error "embedding failure") (Except.ok []) 6 3 true
      = Except.error "embedding failure" := rfl

/-- Claim C4 (amended): if the child-chunk datastore is empty, or the
datastore fetch fails (the embedding call having succeeded), the Detail
Engine's `answer_query` returns the well-formed fixed "not found" answer
object (empty sources, zero counts) without raising; but if the
embedding call itself raises, the exception propagates to the caller,
because the embedding call is made before the error-handled region of
`search_chunks`. -/
theorem C4_retrieval_error_amended (sqrtQ : ℚ → ℚ) (ds : String → Option String)
    (gen : String → Except String String) (q : String) (qe : List ℚ)
    (topK T : Nat) (am : Bool) :
    (answer_query_needle sqrtQ ds gen q (Except.ok qe) (Except.ok []) topK T am
      = Except.ok { answer := "I couldn\x27t find relevant information to answer your question.",
                    sources := [], chunks_used := 0, parent_pages_used := 0 })
    ∧ (∀ err : String,
        answer_query_needle sqrtQ ds gen q (Except.ok qe) (Except.error err) topK T am
          = Except.ok { answer := "I couldn\x27t find relevant information to answer your question.",
                        sources := [], chunks_used := 0, parent_pages_used := 0 })
    ∧ (∀ (err : String) (fetch : Except String (List Chunk)),
        answer_query_needle sqrtQ ds gen q (Except.error err) fetch topK T am
          = Except.error err) :=
  ⟨rfl, fun _ => rfl, fun _ _ => rfl⟩

/-- Claim C7: for every classifier outcome, the Router's `route` returns
exactly one of the two labels and never raises: a trimmed-and-uppercased
output of `SUMMARY` or `NEEDLE` yields the corresponding lowercase
label, and any other output — as well as any exception from the
classification call — yields the default label `needle`. -/
theorem C7_route_default (c : Except String String) :
    (route c = "summary" ∨ route c = "needle")
    ∧ (∀ e, c = Except.error e → route c = "needle")
    ∧ (∀ out, c = Except.ok out → py_upper (py_strip out) = "SUMMARY" →
        route c = "summary")
    ∧ (∀ out, c = Except.ok out → py_upper (py_strip out) = "NEEDLE" →
        route c = "needle")
    ∧ (∀ out, c = Except.ok out → py_upper (py_strip out) ≠ "SUMMARY" →
        py_upper (py_strip out) ≠ "NEEDLE" → route c = "needle") := by
  have route_ok : ∀ out : String, route (Except.ok out)
      = if py_upper (py_strip out) = "SUMMARY" ∨ py_upper (py_strip out) = "NEEDLE"
        then py_lower (py_upper (py_strip out)) else "needle" := fun _ => rfl
  refine ⟨?_, ?_, ?_, ?_, ?_⟩
  · cases c with
    | error e => exact Or.inr rfl
    | ok out =>
      by_cases h1 : py_upper (py_strip out) = "SUMMARY"
      · left
        rw [route_ok, h1, if_pos (Or.inl rfl)]
        decide
      · by_cases h2 : py_upper (py_strip out) = "NEEDLE"
        · right
          rw [route_ok, h2, if_pos (Or.inr rfl)]
          decide
        · right
          rw [route_ok, if_neg (by simp [h1, h2])]
  · intro e hc
    subst hc
    rfl
  · intro out hc h1
    subst hc
    rw [route_ok, h1, if_pos (Or.inl rfl)]
    decide
  · intro out hc h2
    subst hc
    rw [route_ok, h2, if_pos (Or.inr rfl)]
    decide
  · intro out hc h1 h2
    subst hc
    rw [route_ok, if_neg (by simp [h1, h2])]

/-- Witness for C7 at a concrete input: the classifier output
`" Summary "` trims and uppercases to `SUMMARY`, so the router returns
`"summary"`. -/
theorem C7_route_default_witness :
    (Except.ok " Summary " = (Except.ok " Summary " : Except String String)
      ∧ py_upper (py_strip " Summary ") = "SUMMARY")
    ∧ route (Except.ok " Summary ") = "summary" :=
  ⟨⟨rfl, by decide⟩,
   (C7_route_default (Except.ok " Summary ")).2.2.1 " Summary " rfl (by decide)⟩

/-- Claim C9: the Similarity Retriever scores each candidate by cosine
similarity `dot(q,c)/(‖q‖·‖c‖)` (modelled over `ℚ` with the square root
abstract — the properties hold for every square-root function), returns
at most `k` candidates ordered by score descending, and equal-scored
candidates retain their input enumeration order: the scored pairs kept
by the `take k` cut are, for each score value, a prefix of the input's
pairs with that score.  Determinism is inherent: the model is a pure
function of its inputs. -/
theorem C9_search_topk_sorted_stable (sqrtQ : ℚ → ℚ) (qe : List ℚ)
    (chunks : List Chunk) (k : Nat) :
    (search_chunks_core sqrtQ qe chunks k).length ≤ k
    ∧ ((search_chunks_core sqrtQ qe chunks k).map
        (fun c => cosine_similarity sqrtQ qe c.embedding)).Pairwise (fun a b => b ≤ a)
    ∧ ∀ s : ℚ,
        ((sort_desc (similarities sqrtQ qe chunks)).take k).filter (fun p => p.1 = s)
          <+: (similarities sqrtQ qe chunks).filter (fun p => p.1 = s) := by
  refine ⟨?_, ?_, ?_⟩
  · rw [search_chunks_core]
    simp only [List.length_map, List.length_take]
    exact Nat.min_le_left _ _
  · have hsorted := pairwise_sort_desc (similarities sqrtQ qe chunks)
    have htake : ((sort_desc (similarities sqrtQ qe chunks)).take k).Pairwise
        (fun a b : ℚ × Chunk => b.1 ≤ a.1) :=
      List.Pairwise.sublist (List.take_sublist _ _) hsorted
    have hinv : ∀ p ∈ (sort_desc (similarities sqrtQ qe chunks)).take k,
        p.1 = cosine_similarity sqrtQ qe p.2.embedding := by
      intro p hp
      have hp' : p ∈ similarities sqrtQ qe chunks :=
        mem_sort_desc.mp (List.take_subset _ _ hp)
      obtain ⟨c, _, rfl⟩ := List.mem_map.mp hp'
      rfl
    rw [search_chunks_core, List.map_map]
    rw [List.pairwise_map]
    refine htake.imp_of_mem ?_
    intro a b ha hb h
    simp only [Function.comp]
    rw [← hinv a ha, ← hinv b hb]
    exact h
  · intro s
    have hstab := filter_sort_desc (similarities sqrtQ qe chunks) s
    have hpref := filter_take_prefix (fun p : ℚ × Chunk => decide (p.1 = s))
      (sort_desc (similarities sqrtQ qe chunks)) k
    rw [hstab] at hpref
    exact hpref

/-- Claim C2 is refuted by the code: evaluation at the failing input. -/
theorem C2_summary_topk_negative_slice :
    ((search_summaries_result (fun x => x) [1]
        [ { summary_type := some "Overview", embedding := [1] },
          { summary_type := some "Overview", embedding := [1] },
          { summary_id := some "other_a", embedding := [1] },
          { summary_id := some "other_b", embedding := [0] } ] 1).filter
      (fun s => ¬ (page_type_of s = "Overview"))).length = 1 := by
  simp only [search_summaries_result, search_summaries_core]
  rw [if_neg (by decide)]
  have hovs : (([ { summary_type := some "Overview", embedding := [1] },
          { summary_type := some "Overview", embedding := [1] },
          { summary_id := some "other_a", embedding := [1] },
          { summary_id := some "other_b", embedding := [0] } ] : List SummaryRec).filter
        (fun s => page_type_of s = "Overview"))
      = [ { summary_type := some "Overview", embedding := [1] },
          { summary_type := some "Overview", embedding := [1] } ] := by decide
  have hoth : (([ { summary_type := some "Overview", embedding := [1] },
          { summary_type := some "Overview", embedding := [1] },
          { summary_id := some "other_a", embedding := [1] },
          { summary_id := some "other_b", embedding := [0] } ] : List SummaryRec).filter
        (fun s => ¬ (page_type_of s = "Overview")))
      = [ { summary_id := some "other_a", embedding := [1] },
          { summary_id := some "other_b", embedding := [0] } ] := by decide
  rw [hovs, hoth]
  set f := fun s : SummaryRec =>
    (cosine_similarity (fun x => x) [1] s.embedding, s) with hf
  set sims := sort_desc ([ { summary_id := some "other_a", embedding := [1] },
      { summary_id := some "other_b", embedding := [0] } ].map f) with hsims
  have hlen : sims.length = 2 := by
    rw [hsims, length_sort_desc]
    rfl
  rw [hlen]
  have hmin : ((((1 : Nat)) : Int) - ((([ { summary_type := some "Overview", embedding := [1] },
        { summary_type := some "Overview", embedding := [1] } ] : List SummaryRec).length : Int)))
      ⊓ (((2 : Nat)) : Int) = -1 := by decide
  rw [hmin]
  simp only [py_slice_take]
  rw [if_neg (by decide), hlen]
  have h1 : (2 : Nat) - (Int.toNat (-(-1 : Int))) = 1 := by decide
  rw [h1]
  rw [List.filter_append]
  have hov_filter : (([ { summary_type := some "Overview", embedding := [1] },
        { summary_type := some "Overview", embedding := [1] } ] : List SummaryRec).filter
      (fun s => ¬ (page_type_of s = "Overview"))) = [] := by decide
  rw [hov_filter]
  have hkeep : ((sims.take 1).map Prod.snd).filter
      (fun s => ¬ (page_type_of s = "Overview")) = (sims.take 1).map Prod.snd := by
    rw [List.filter_eq_self]
    intro a ha
    obtain ⟨pr, hpr, rfl⟩ := List.mem_map.mp ha
    have hpr' : pr ∈ sims := List.take_subset _ _ hpr
    rw [hsims] at hpr'
    have hm : pr ∈ [ { summary_id := some "other_a", embedding := [1] },
        { summary_id := some "other_b", embedding := [0] } ].map f := mem_sort_desc.mp hpr'
    obtain ⟨srec, hsrec, rfl⟩ := List.mem_map.mp hm
    rcases List.mem_cons.mp hsrec with rfl | hsrec'
    · decide
    · rcases List.mem_cons.mp hsrec' with rfl | hsrec''
      · decide
      · exact absurd hsrec'' (List.not_mem_nil _)
  rw [hkeep]
  simp only [List.nil_append, List.length_map, List.length_take, hlen]
  decide

/-- Claim C5: for every query and every corpus of summary units, every
summary unit whose type tag is `Overview` is included in the Overview
Engine's selected context set, and its source entry is in the answer's
source list, independent of its cosine-similarity rank and of the
requested top-K value. -/
theorem C5_overview_floor (sqrtQ : ℚ → ℚ) (gen : String → Except String String)
    (query : String) (qe : List ℚ) (summaries : List SummaryRec) (topK : Nat)
    (u : SummaryRec) (hu : u ∈ summaries) (ho : page_type_of u = "Overview") :
    u ∈ search_summaries_result sqrtQ qe summaries topK
    ∧ ∀ r, answer_query_summary sqrtQ gen query (Except.ok qe) (Except.ok summaries) topK
        = Except.ok r → summary_source_of u ∈ r.sources := by
  have hne : summaries ≠ [] := by
    intro habs
    rw [habs] at hu
    exact List.not_mem_nil u hu
  have hmem : u ∈ search_summaries_result sqrtQ qe summaries topK := by
    rw [search_summaries_result, if_neg hne]
    rw [search_summaries_core]
    apply List.mem_append_left
    exact List.mem_filter.mpr ⟨hu, by simp [ho]⟩
  refine ⟨hmem, ?_⟩
  intro r hr
  have hres_ne : search_summaries_result sqrtQ qe summaries topK ≠ [] := by
    intro habs
    rw [habs] at hmem
    exact List.not_mem_nil u hmem
  rw [answer_query_summary] at hr
  simp only [search_summaries] at hr
  rw [if_neg hres_ne] at hr
  rcases hgen : gen (summary_user_prompt
      (String.intercalate "\n\n"
        (summary_context_parts (search_summaries_result sqrtQ qe summaries topK)))
      query) with e | a
  · rw [hgen] at hr
    have hr' : r =
        { answer := "An error occurred while generating the answer.",
          sources := (search_summaries_result sqrtQ qe summaries topK).map summary_source_of,
          summaries_used := (search_summaries_result sqrtQ qe summaries topK).length } := by
      cases hr
      rfl
    rw [hr']
    exact List.mem_map.mpr ⟨u, hmem, rfl⟩
  · rw [hgen] at hr
    have hr' : r =
        { answer := a,
          sources := (search_summaries_result sqrtQ qe summaries topK).map summary_source_of,
          summaries_used := (search_summaries_result sqrtQ qe summaries topK).length } := by
      cases hr
      rfl
    rw [hr']
    exact List.mem_map.mpr ⟨u, hmem, rfl⟩

/-- Witness for C5 at a concrete input: a single Overview unit with
`topK = 0` is still selected. -/
theorem C5_overview_floor_witness :
    (({ summary_type := some "Overview" } : SummaryRec)
        ∈ [({ summary_type := some "Overview" } : SummaryRec)]
      ∧ page_type_of ({ summary_type := some "Overview" } : SummaryRec) = "Overview")
    ∧ ({ summary_type := some "Overview" } : SummaryRec)
        ∈ search_summaries_result (fun x => x) []
            [({ summary_type := some "Overview" } : SummaryRec)] 0 :=
  ⟨⟨by decide, by decide⟩,
   (C5_overview_floor (fun x => x) (fun _ => Except.ok "ans") "q" []
      [({ summary_type := some "Overview" } : SummaryRec)] 0
      ({ summary_type := some "Overview" } : SummaryRec) (by decide) (by decide)).1⟩

/-- Claim C6: in both engines' `answer_query`, if retrieval succeeded (at
least one unit retrieved) but the answer-generation call raises, the
returned object carries the fixed failure message in the answer field
while the sources and counts (`chunks_used` and `parent_pages_used` for
the Detail Engine; `summaries_used` for the Overview Engine) are
identical to what the success path would have returned — no data loss on
partial failure, and no exception propagates to the caller. -/
theorem C6_generation_failure_preserves
    (sqN : ℚ → ℚ) (ds : String → Option String) (q : String) (qeN : List ℚ)
    (cands : List Chunk) (kN T : Nat) (am : Bool) (e a : String)
    (sqS : ℚ → ℚ) (q2 : String) (qe2 : List ℚ) (sums : List SummaryRec) (k2 : Nat)
    (e2 a2 : String) :
    (search_chunks_result sqN qeN cands kN ≠ [] →
      ∃ rf rs : NeedleResult,
        answer_query_needle sqN ds (fun _ => Except.error e) q (Except.ok qeN)
          (Except.ok cands) kN T am = Except.ok rf
        ∧ answer_query_needle sqN ds (fun _ => Except.ok a) q (Except.ok qeN)
          (Except.ok cands) kN T am = Except.ok rs
        ∧ rf.answer = "An error occurred while generating the answer."
        ∧ rf.sources = rs.sources
        ∧ rf.chunks_used = rs.chunks_used
        ∧ rf.parent_pages_used = rs.parent_pages_used)
    ∧ (search_summaries_result sqS qe2 sums k2 ≠ [] →
      ∃ rf rs : SummaryResult,
        answer_query_summary sqS (fun _ => Except.error e2) q2 (Except.ok qe2)
          (Except.ok sums) k2 = Except.ok rf
        ∧ answer_query_summary sqS (fun _ => Except.ok a2) q2 (Except.ok qe2)
          (Except.ok sums) k2 = Except.ok rs
        ∧ rf.answer = "An error occurred while generating the answer."
        ∧ rf.sources = rs.sources
        ∧ rf.summaries_used = rs.summaries_used) := by
  constructor
  · intro hne
    refine ⟨needle_generate ds (fun _ => Except.error e) q
        (search_chunks_result sqN qeN cands kN) T am,
      needle_generate ds (fun _ => Except.ok a) q
        (search_chunks_result sqN qeN cands kN) T am, ?_, ?_, rfl, rfl, rfl, rfl⟩
    · simp only [answer_query_needle, search_chunks]
      rw [if_neg hne]
    · simp only [answer_query_needle, search_chunks]
      rw [if_neg hne]
  · intro hne
    refine ⟨{ answer := "An error occurred while generating the answer.",
              sources := (search_summaries_result sqS qe2 sums k2).map summary_source_of,
              summaries_used := (search_summaries_result sqS qe2 sums k2).length },
      { answer := a2,
        sources := (search_summaries_result sqS qe2 sums k2).map summary_source_of,
        summaries_used := (search_summaries_result sqS qe2 sums k2).length },
      ?_, ?_, rfl, rfl, rfl⟩
    · simp only [answer_query_summary, search_summaries]
      rw [if_neg hne]
    · simp only [answer_query_summary, search_summaries]
      rw [if_neg hne]

/-- Witness for C6 at a concrete input: one retrieved chunk and one
retrieved summary; the failing-generator results carry the fixed failure
message with the same sources and counts as the succeeding-generator
results. -/
theorem C6_generation_failure_preserves_witness :
    (search_chunks_result (fun x => x) [1] [{ embedding := [1] }] 1 ≠ []
      ∧ search_summaries_result (fun x => x) [1] [{}] 1 ≠ [])
    ∧ (∃ rf rs : NeedleResult,
        answer_query_needle (fun x => x) (fun _ => none) (fun _ => Except.error "boom") "q"
          (Except.ok [1]) (Except.ok [{ embedding := [1] }]) 1 3 true = Except.ok rf
        ∧ answer_query_needle (fun x => x) (fun _ => none) (fun _ => Except.ok "fine") "q"
          (Except.ok [1]) (Except.ok [{ embedding := [1] }]) 1 3 true = Except.ok rs
        ∧ rf.answer = "An error occurred while generating the answer."
        ∧ rf.sources = rs.sources
        ∧ rf.chunks_used = rs.chunks_used
        ∧ rf.parent_pages_used = rs.parent_pages_used)
    ∧ (∃ rf rs : SummaryResult,
        answer_query_summary (fun x => x) (fun _ => Except.error "boom2") "q2"
          (Except.ok [1]) (Except.ok [{}]) 1 = Except.ok rf
        ∧ answer_query_summary (fun x => x) (fun _ => Except.ok "fine2") "q2"
          (Except.ok [1]) (Except.ok [{}]) 1 = Except.ok rs
        ∧ rf.answer = "An error occurred while generating the answer."
        ∧ rf.sources = rs.sources
        ∧ rf.summaries_used = rs.summaries_used) :=
  ⟨⟨by decide, by decide⟩,
   (C6_generation_failure_preserves (fun x => x) (fun _ => none) "q" [1]
      [{ embedding := [1] }] 1 3 true "boom" "fine"
      (fun x => x) "q2" [1] [{}] 1 "boom2" "fine2").1 (by decide),
   (C6_generation_failure_preserves (fun x => x) (fun _ => none) "q" [1]
      [{ embedding := [1] }] 1 3 true "boom" "fine"
      (fun x => x) "q2" [1] [{}] 1 "boom2" "fine2").2 (by decide)⟩
